import Mathlib

/-!
Verification of the SolGuard AI vulnerability-detection engine
(`app/ai_detector.py`) against its natural-language specification.

Modelling choices, used throughout this file:

* Python strings are modelled as `List Char` (`Str`); `s2l` turns a Lean
  string literal into this representation.
* Python float arithmetic is modelled exactly, as rational arithmetic, by
  the fraction type `Frac`: pairs of integers with a positive denominator,
  never normalised, so that every operation is plain integer arithmetic
  which the kernel can evaluate on concrete inputs.  `Frac.toRat` maps a
  fraction to the rational number it denotes and is a homomorphism for all
  the operations used; order-theoretic reasoning happens on `ℚ` through
  this bridge.
* `time.time()` is an external input; `analyze_program` therefore takes the
  timestamp as an explicit argument.
-/

set_option maxRecDepth 100000

/-- Python strings are modelled as lists of characters. -/
abbrev Str := List Char

/-- Characters of a string literal: the bridge from Lean string literals to
the `Str` model. -/
def s2l (s : String) : Str := s.data

/-- Exact fractions `n / d` with a positive denominator.  This models the
Python float arithmetic of `ai_detector.py` as exact rational arithmetic;
fractions are not normalised, so all operations below reduce in the kernel. -/
structure Frac where
  n : Int
  d : Nat
  dpos : 0 < d := by decide
deriving DecidableEq

/-- The fraction with integer value `i`. -/
def Frac.ofInt (i : Int) : Frac := ⟨i, 1, by decide⟩

/-- Addition of fractions. -/
def Frac.add (a b : Frac) : Frac :=
  ⟨a.n * b.d + b.n * a.d, a.d * b.d, Nat.mul_pos a.dpos b.dpos⟩

/-- Subtraction of fractions. -/
def Frac.sub (a b : Frac) : Frac :=
  ⟨a.n * b.d - b.n * a.d, a.d * b.d, Nat.mul_pos a.dpos b.dpos⟩

/-- Multiplication of fractions. -/
def Frac.mul (a b : Frac) : Frac :=
  ⟨a.n * b.n, a.d * b.d, Nat.mul_pos a.dpos b.dpos⟩

/-- Division of fractions; division by a fraction of value zero yields zero
(that branch is never taken by the embedded code). -/
def Frac.div (a b : Frac) : Frac :=
  if h : 0 < b.n then
    ⟨a.n * b.d, a.d * b.n.toNat, Nat.mul_pos a.dpos (by omega)⟩
  else if h2 : b.n < 0 then
    ⟨-(a.n * b.d), a.d * (-b.n).toNat, Nat.mul_pos a.dpos (by omega)⟩
  else ⟨0, 1, by decide⟩

/-- Comparison `a ≤ b` of fractions, as a boolean. -/
def Frac.le (a b : Frac) : Bool := decide (a.n * b.d ≤ b.n * a.d)

/-- Comparison `a < b` of fractions, as a boolean. -/
def Frac.lt (a b : Frac) : Bool := decide (a.n * b.d < b.n * a.d)

/-- Minimum of two fractions (Python `min`). -/
def Frac.fmin (a b : Frac) : Frac := if a.le b then a else b

/-- Absolute value of a fraction (Python `abs`). -/
def Frac.fabs (a : Frac) : Frac := if a.n < 0 then ⟨-a.n, a.d, a.dpos⟩ else a

/-- Truncation toward zero (Python `int(...)` on a float). -/
def Frac.trunc (a : Frac) : Int := a.n.tdiv a.d

/-- The rational number denoted by a fraction. -/
def Frac.toRat (a : Frac) : ℚ := (a.n : ℚ) / (a.d : ℚ)

/-- Truncation toward zero on `ℚ`, the specification-side counterpart of
`Frac.trunc`. -/
def ratTrunc (q : ℚ) : Int := if q < 0 then -⌊-q⌋ else ⌊q⌋

theorem Frac.dQ_pos (a : Frac) : (0 : ℚ) < (a.d : ℚ) := by exact_mod_cast a.dpos

theorem Frac.dQ_ne (a : Frac) : (a.d : ℚ) ≠ 0 := ne_of_gt a.dQ_pos

theorem Frac.toRat_add (a b : Frac) : (a.add b).toRat = a.toRat + b.toRat := by
  unfold Frac.add Frac.toRat
  have ha := a.dQ_ne
  have hb := b.dQ_ne
  push_cast
  field_simp
  try ring

theorem Frac.toRat_sub (a b : Frac) : (a.sub b).toRat = a.toRat - b.toRat := by
  unfold Frac.sub Frac.toRat
  have ha := a.dQ_ne
  have hb := b.dQ_ne
  push_cast
  field_simp
  try ring

theorem Frac.toRat_mul (a b : Frac) : (a.mul b).toRat = a.toRat * b.toRat := by
  unfold Frac.mul Frac.toRat
  have ha := a.dQ_ne
  have hb := b.dQ_ne
  push_cast
  field_simp
  try ring

theorem Frac.toRat_div (a b : Frac) : (a.div b).toRat = a.toRat / b.toRat := by
  unfold Frac.div Frac.toRat
  have ha := a.dQ_ne
  have hb := b.dQ_ne
  by_cases h : 0 < b.n
  · rw [dif_pos h]
    have hn : ((b.n.toNat : ℚ)) = (b.n : ℚ) := by
      have := Int.toNat_of_nonneg (le_of_lt h)
      exact_mod_cast congrArg (fun z : Int => (z : ℚ)) this
    have hbn : (b.n : ℚ) ≠ 0 := by
      have : (0:ℚ) < (b.n : ℚ) := by exact_mod_cast h
      exact ne_of_gt this
    push_cast
    rw [hn]
    rw [div_div_div_eq]
    try ring
  · rw [dif_neg h]
    by_cases h2 : b.n < 0
    · rw [dif_pos h2]
      have hn : (((-b.n).toNat : ℚ)) = ((-b.n : Int) : ℚ) := by
        have := Int.toNat_of_nonneg (by omega : (0:Int) ≤ -b.n)
        exact_mod_cast congrArg (fun z : Int => (z : ℚ)) this
      have hbn : (b.n : ℚ) ≠ 0 := by
        have : ((b.n : ℚ)) < 0 := by exact_mod_cast h2
        exact ne_of_lt this
      push_cast
      push_cast at hn
      rw [hn]
      rw [div_div_div_eq]
      try ring
    · rw [dif_neg h2]
      have hz : b.n = 0 := by omega
      simp [Frac.toRat, hz]

theorem Frac.le_iff (a b : Frac) : a.le b = true ↔ a.toRat ≤ b.toRat := by
  unfold Frac.le Frac.toRat
  rw [decide_eq_true_iff, div_le_div_iff₀ a.dQ_pos b.dQ_pos]
  constructor
  · intro h; exact_mod_cast h
  · intro h; exact_mod_cast h

theorem Frac.lt_iff (a b : Frac) : a.lt b = true ↔ a.toRat < b.toRat := by
  unfold Frac.lt Frac.toRat
  rw [decide_eq_true_iff, div_lt_div_iff₀ a.dQ_pos b.dQ_pos]
  constructor
  · intro h; exact_mod_cast h
  · intro h; exact_mod_cast h

theorem Frac.toRat_fmin (a b : Frac) : (a.fmin b).toRat = min a.toRat b.toRat := by
  unfold Frac.fmin
  by_cases h : a.le b = true
  · rw [if_pos h, min_eq_left ((a.le_iff b).mp h)]
  · rw [if_neg h]
    have : ¬ a.toRat ≤ b.toRat := fun hc => h ((a.le_iff b).mpr hc)
    rw [min_eq_right (le_of_lt (lt_of_not_le this))]

theorem Frac.toRat_fabs (a : Frac) : a.fabs.toRat = |a.toRat| := by
  unfold Frac.fabs
  by_cases h : a.n < 0
  · rw [if_pos h]
    have hneg : a.toRat < 0 := by
      unfold Frac.toRat
      apply div_neg_of_neg_of_pos _ a.dQ_pos
      exact_mod_cast h
    rw [abs_of_neg hneg]
    unfold Frac.toRat
    push_cast
    ring
  · rw [if_neg h]
    have hpos : 0 ≤ a.toRat := by
      unfold Frac.toRat
      apply div_nonneg _ (le_of_lt a.dQ_pos)
      exact_mod_cast not_lt.mp h
    rw [abs_of_nonneg hpos]

theorem Frac.trunc_toRat (a : Frac) : a.trunc = ratTrunc a.toRat := by
  unfold Frac.trunc ratTrunc
  by_cases h : a.n < 0
  · have hneg : a.toRat < 0 := by
      unfold Frac.toRat
      apply div_neg_of_neg_of_pos _ a.dQ_pos
      exact_mod_cast h
    rw [if_pos hneg]
    have hflip : -a.toRat = ((-a.n : Int) : ℚ) / (a.d : ℚ) := by
      unfold Frac.toRat
      push_cast
      ring
    rw [hflip, Rat.floor_intCast_div_natCast]
    have : a.n.tdiv a.d = -((-a.n).tdiv a.d) := by
      rw [Int.neg_tdiv, neg_neg]
    rw [this, Int.tdiv_eq_ediv (by omega) (by positivity)]
  · have hge : 0 ≤ a.toRat := by
      unfold Frac.toRat
      apply div_nonneg _ (le_of_lt a.dQ_pos)
      exact_mod_cast not_lt.mp h
    rw [if_neg (not_lt.mpr hge)]
    unfold Frac.toRat
    rw [Rat.floor_intCast_div_natCast, Int.tdiv_eq_ediv (not_lt.mp h) (by positivity)]

theorem Frac.toRat_ofInt (i : Int) : (Frac.ofInt i).toRat = (i : ℚ) := by
  unfold Frac.ofInt Frac.toRat
  norm_num

/-! ## String primitives: Python `in`, `count`, `lower`, and decimal rendering -/

/-- Python substring test `sub in s` (case-sensitive). -/
def containsSub (sub : Str) : Str → Bool
  | [] => sub.isEmpty
  | c :: rest => sub.isPrefixOf (c :: rest) || containsSub sub rest

/-- Fuel-driven worker for `countOcc`; the fuel only forces termination and
`countOcc` always supplies enough. -/
def countOccF (pat : Str) : Nat → Str → Nat
  | 0, _ => 0
  | _ + 1, [] => 0
  | f + 1, c :: rest =>
    if pat.isPrefixOf (c :: rest) && !pat.isEmpty then
      1 + countOccF pat f ((c :: rest).drop pat.length)
    else countOccF pat f rest

/-- Python `s.count(pat)` for a nonempty pattern: the number of
non-overlapping occurrences, scanning from the left. -/
def countOcc (pat s : Str) : Nat := countOccF pat s.length s

/-- Python `str.lower()` (ASCII, which covers every scanned indicator). -/
def lowerStr (s : Str) : Str := s.map Char.toLower

/-- Decimal rendering of a natural number (Python string formatting). -/
def natStr (m : Nat) : Str := Nat.toDigits 10 m

/-! ## A regular-expression engine

`ai_detector.py` compiles five fixed patterns with `re.IGNORECASE` and
`re.MULTILINE` and scans them with `re.finditer`.  None of the patterns
uses `^` or `$`, so `re.MULTILINE` has no effect; `re.DOTALL` is off, so
`.` does not match a newline.  The engine below implements exactly the
constructs those five patterns use — case-insensitive literals, the
classes `.`, `\s` and `\w`, greedy `*` over a class, alternation,
concatenation and negative lookahead — with Python's leftmost,
backtracking-priority match semantics: `mrun` returns the possible
remainders in backtracking priority order (greedy, longest first), and
`finditer` takes the first match at each position and resumes after each
non-overlapping match. -/

/-- Character classes appearing in the detector's regular expressions. -/
inductive CharCls where
  | dot
  | wsp
  | wrd
deriving DecidableEq

/-- Regular expressions: exactly the constructs used by the five patterns. -/
inductive RE where
  | eps
  | lit : Str → RE
  | cls : CharCls → RE
  | star : CharCls → RE
  | seq : RE → RE → RE
  | alt : RE → RE → RE
  | nla : RE → RE
deriving DecidableEq

/-- Case-insensitive character comparison (`re.IGNORECASE`). -/
def ciEq (a b : Char) : Bool := a.toLower == b.toLower

/-- Membership of a character in a class (ASCII, as in the scanned code). -/
def clsMatch : CharCls → Char → Bool
  | .dot, c => c != '\n'
  | .wsp, c => c == ' ' || c == '\t' || c == '\n' || c == '\r' || c == '\x0b' || c == '\x0c'
  | .wrd, c => c.isAlphanum || c == '_'

/-- Remainder of the text after a case-insensitive literal, if the literal
is a prefix of the text. -/
def ciDrop : Str → Str → Option Str
  | [], t => some t
  | _ :: _, [] => none
  | p :: ps, c :: t => if ciEq p c then ciDrop ps t else none

/-- Remainders after a greedy class star, longest match first. -/
def starSuffixes (k : CharCls) : Str → List Str
  | [] => [[]]
  | c :: t => if clsMatch k c then starSuffixes k t ++ [c :: t] else [c :: t]

/-- All remainders after matching `r` at the head of the text, in Python
backtracking priority order. -/
def mrun : RE → Str → List Str
  | .eps, t => [t]
  | .lit p, t => match ciDrop p t with | some r => [r] | none => []
  | .cls k, t => match t with
    | [] => []
    | c :: r => if clsMatch k c then [r] else []
  | .star k, t => starSuffixes k t
  | .seq a b, t => (mrun a t).flatMap (fun r => mrun b r)
  | .alt a b, t => mrun a t ++ mrun b t
  | .nla r, t => if (mrun r t).isEmpty then [t] else []

/-- Length of the first (backtracking-preferred) match of `r` at the
current position, if any. -/
def firstMatchLen (r : RE) (t : Str) : Option Nat :=
  (mrun r t).head?.map (fun rem => t.length - rem.length)

/-- Fuel-driven worker for `finditer`; fuel `t.length + 1` always suffices. -/
def finditerF (r : RE) : Nat → Str → Nat → List (Nat × Nat)
  | 0, _, _ => []
  | f + 1, t, pos =>
    match firstMatchLen r t with
    | some len =>
      if len == 0 then
        (pos, pos) :: (match t with
          | [] => []
          | _ :: rest => finditerF r f rest (pos + 1))
      else (pos, pos + len) :: finditerF r f (t.drop len) (pos + len)
    | none =>
      match t with
      | [] => []
      | _ :: rest => finditerF r f rest (pos + 1)

/-- Python `re.finditer`: the spans `(start, end)` of the non-overlapping matches
of `r` in `t`, scanning left to right. -/
def finditer (r : RE) (t : Str) : List (Nat × Nat) := finditerF r (t.length + 1) t 0

/-- Concatenation of a list of regular expressions. -/
def reCat (l : List RE) : RE := l.foldr RE.seq RE.eps

/-- Case-insensitive literal regular expression from a string literal. -/
def reL (s : String) : RE := RE.lit (s2l s)

/-! ## Data model (`VulnerabilityPattern`, findings, quantum patterns,
historical exploits) -/

/-- The `VulnerabilityPattern` dataclass; the `pattern` regex source is
embedded in compiled form in `regex`, and `vuln_type` by its string value. -/
structure VulnerabilityPattern where
  vuln_type : Str
  regex : RE
  severity : Int
  description : Str
  recommendation : Str
  confidence_threshold : Frac
deriving DecidableEq

/-- One finding: the dictionaries appended by the four detection sources
(keys `type`, `severity`, `description`, `location`, `confidence`,
`recommendation`; `type` is named `ftype` here). -/
structure Finding where
  ftype : Str
  severity : Int
  description : Str
  location : Str
  confidence : Frac
  recommendation : Str
deriving DecidableEq

/-- Compiled form of `(?!.*require!.*Signer).*Transfer.*`. -/
def signerRegex : RE :=
  reCat [RE.nla (reCat [RE.star .dot, reL ("require!"), RE.star .dot, reL ("Signer")]),
         RE.star .dot, reL ("Transfer"), RE.star .dot]

/-- Compiled form of `\.checked_(add|sub|mul|div)\(`. -/
def checkedRegex : RE :=
  reCat [reL (".checked_"),
         RE.alt (RE.alt (reL ("add")) (reL ("sub"))) (RE.alt (reL ("mul")) (reL ("div"))),
         reL ("(")]

/-- Compiled form of `Account<'info,\s*\w+>.*(?!init)`  (the apostrophe is
written as `Char.ofNat 39`). -/
def acctRegex : RE :=
  reCat [RE.lit (s2l ("Account<") ++ [Char.ofNat 39] ++ s2l ("info,")),
         RE.star .wsp, RE.cls .wrd, RE.star .wrd, reL (">"), RE.star .dot,
         RE.nla (reL ("init"))]

/-- Compiled form of `(invoke|invoke_signed).*\n.*state\s*=`. -/
def reentrancyRegex : RE :=
  reCat [RE.alt (reL ("invoke")) (reL ("invoke_signed")),
         RE.star .dot, reL ("\n"), RE.star .dot, reL ("state"), RE.star .wsp, reL ("=")]

/-- Compiled form of `(ed25519|secp256k1|ECDSA)(?!.*quantum)`. -/
def cryptoRegex : RE :=
  reCat [RE.alt (RE.alt (reL ("ed25519")) (reL ("secp256k1"))) (reL ("ECDSA")),
         RE.nla (reCat [RE.star .dot, reL ("quantum")])]

/-- Embedding of `_initialize_patterns`: the five detection patterns. -/
def initialize_patterns : List VulnerabilityPattern :=
  [ { vuln_type := s2l ("missing_signer_check"), regex := signerRegex, severity := 9,
      description := s2l ("Missing signer verification before token transfer"),
      recommendation := s2l ("Add require!(ctx.accounts.authority.is_signer) before transfers"),
      confidence_threshold := ⟨85, 100, by decide⟩ },
    { vuln_type := s2l ("integer_overflow"), regex := checkedRegex, severity := 8,
      description := s2l ("Arithmetic operation without overflow protection"),
      recommendation := s2l ("Use checked_add/sub/mul/div instead of direct arithmetic"),
      confidence_threshold := ⟨90, 100, by decide⟩ },
    { vuln_type := s2l ("uninitialized_account"), regex := acctRegex, severity := 7,
      description := s2l ("Account used without initialization check"),
      recommendation := s2l ("Add #[account(init)] or verify account is initialized"),
      confidence_threshold := ⟨80, 100, by decide⟩ },
    { vuln_type := s2l ("reentrancy"), regex := reentrancyRegex, severity := 10,
      description := s2l ("State change after external call (reentrancy risk)"),
      recommendation := s2l ("Update state before making external calls (checks-effects-interactions)"),
      confidence_threshold := ⟨95, 100, by decide⟩ },
    { vuln_type := s2l ("quantum_vulnerable"), regex := cryptoRegex, severity := 6,
      description := s2l ("Uses classical cryptography vulnerable to quantum attacks"),
      recommendation := s2l ("Implement post-quantum cryptographic signatures (Dilithium, SPHINCS+)"),
      confidence_threshold := ⟨75, 100, by decide⟩ } ]

/-- One entry of the quantum-pattern table. -/
structure QuantumPattern where
  qname : Str
  indicators : List Str
  quantum_safe : Bool
  severity : Int
  recommendation : Str
deriving DecidableEq

/-- Embedding of `_initialize_quantum_patterns`. -/
def initialize_quantum_patterns : List QuantumPattern :=
  [ { qname := s2l ("Classical Signature Scheme"),
      indicators := [s2l ("ed25519"), s2l ("secp256k1"), s2l ("ECDSA"), s2l ("RSA")],
      quantum_safe := false, severity := 6,
      recommendation := s2l ("Migrate to CRYSTALS-Dilithium or SPHINCS+") },
    { qname := s2l ("Symmetric Encryption"),
      indicators := [s2l ("AES-128"), s2l ("AES-192")],
      quantum_safe := false, severity := 5,
      recommendation := s2l ("Use AES-256 minimum (provides 128-bit quantum security)") },
    { qname := s2l ("Hash Functions"),
      indicators := [s2l ("SHA-256"), s2l ("SHA3-256")],
      quantum_safe := true, severity := 0,
      recommendation := s2l ("SHA-256/SHA3 are quantum-resistant") } ]

/-- One entry of the historical-exploit registry. -/
structure HistoricalExploit where
  exploit_type : Str
  loss_amount : Nat
  date : Str
  pattern_signature : Str
deriving DecidableEq

/-- Embedding of `_load_historical_data`. -/
def load_historical_data : List HistoricalExploit :=
  [ { exploit_type := s2l ("reentrancy"), loss_amount := 40000000,
      date := s2l ("2026-01-30"),
      pattern_signature := s2l ("external_call_before_state_update") },
    { exploit_type := s2l ("unauthorized_access"), loss_amount := 3100000000,
      date := s2l ("2025-12-15"),
      pattern_signature := s2l ("missing_authority_check") } ]

/-! ## The detection sources -/

/-- Embedding of `_calculate_confidence`: base 0.70 plus contextual bonuses inside the
±100-character window, clamped at 1.  The three context tests are
case-sensitive Python `in` tests. -/
def calculate_confidence (code : Str) (mstart mend : Nat) : Frac :=
  let cstart := mstart - 100
  let cend := min code.length (mend + 100)
  let context := (code.drop cstart).take (cend - cstart)
  let c1 : Frac := ⟨7, 10, by decide⟩
  let c2 := if containsSub (s2l ("unsafe")) context then c1.add ⟨1, 10, by decide⟩ else c1
  let c3 := if containsSub (s2l ("unwrap()")) context then c2.add ⟨5, 100, by decide⟩ else c2
  let c4 := if !(containsSub (s2l ("require!")) context) then c3.add ⟨1, 10, by decide⟩ else c3
  c4.fmin (Frac.ofInt 1)

/-- Embedding of `_detect_pattern`: every regex match whose contextual confidence
reaches the pattern's threshold becomes a finding. -/
def detect_pattern (code : Str) (p : VulnerabilityPattern) : List Finding :=
  (finditer p.regex code).filterMap (fun span =>
    let conf := calculate_confidence code span.1 span.2
    if p.confidence_threshold.le conf then
      some { ftype := p.vuln_type, severity := p.severity, description := p.description,
             location := s2l ("Line ") ++ natStr ((code.take span.1).count '\n' + 1),
             confidence := conf, recommendation := p.recommendation }
    else none)

/-- The eight raw code-shape counts collected by `_extract_features`. -/
def feature_counts (code : Str) : List Nat :=
  [code.length, countOcc (s2l ("\n")) code, countOcc (s2l ("fn ")) code,
   countOcc (s2l ("require!")) code, countOcc (s2l ("invoke")) code,
   countOcc (s2l ("Transfer")) code, countOcc (s2l ("mut ")) code,
   countOcc (s2l ("unsafe")) code]

/-- Embedding of `_extract_features`: the eight code-shape counts, normalised by the
maximum entry plus the `1e-10` epsilon guard. -/
def extract_features (code : Str) : List Frac :=
  let m : Nat := (feature_counts code).foldr max 0
  (feature_counts code).map
    (fun a => (Frac.ofInt a).div ((Frac.ofInt m).add ⟨1, 10000000000, by decide⟩))

/-- Embedding of `_compute_anomaly_score`: deviations of the check-count and
unsafe-marker features from the expected ratios 0.1 and 0.01. -/
def compute_anomaly_score (features : List Frac) : Frac :=
  let c_dev := ((features.getD 3 (Frac.ofInt 0)).sub ⟨1, 10, by decide⟩).fabs
  let u_dev := ((features.getD 7 (Frac.ofInt 0)).sub ⟨1, 100, by decide⟩).fabs
  ((c_dev.add (u_dev.mul (Frac.ofInt 5))).div (Frac.ofInt 2)).fmin (Frac.ofInt 1)

/-- Decimal rendering with two fraction digits, for the anomaly
description (Python `f"...:.2f"`); this code path is unreachable
(`anomaly_score_lt_7_10` below), so this rendering never reaches any
result. -/
def fmt2 (q : Frac) : Str :=
  let cents := (q.mul (Frac.ofInt 100)).trunc.toNat
  natStr (cents / 100) ++ s2l (".") ++ natStr (cents % 100 / 10) ++ natStr (cents % 10)

/-- Embedding of `_ml_anomaly_detection`: one anomaly finding when the anomaly score
exceeds 0.7, none otherwise. -/
def ml_anomaly_detection (code : Str) : List Finding :=
  let s := compute_anomaly_score (extract_features code)
  if (⟨7, 10, by decide⟩ : Frac).lt s then
    [{ ftype := s2l ("anomaly_detected"), severity := (s.mul (Frac.ofInt 10)).trunc,
       description := s2l ("Unusual code patterns detected (anomaly score: ") ++ fmt2 s ++ s2l (")"),
       location := s2l ("Multiple locations"), confidence := s,
       recommendation := s2l ("Manual review recommended for unusual patterns") }]
  else []

/-- Embedding of `_assess_quantum_resistance`: one finding per quantum-unsafe indicator
that occurs (case-insensitively) in the code. -/
def assess_quantum_resistance (code : Str) : List Finding :=
  (initialize_quantum_patterns.map (fun p =>
    p.indicators.filterMap (fun ind =>
      if containsSub (lowerStr ind) (lowerStr code) && !p.quantum_safe then
        some { ftype := s2l ("quantum_vulnerable"), severity := p.severity,
               description := s2l ("Uses ") ++ p.qname ++ s2l (" which is vulnerable to quantum attacks"),
               location := s2l ("Cryptographic implementation"),
               confidence := ⟨95, 100, by decide⟩, recommendation := p.recommendation }
      else none))).flatten

/-- Embedding of `_match_historical_exploits`: the code is lower-cased and stripped of
underscores and spaces, then each registry signature is tested for
containment.  (The thousands separators of the Python loss-amount
rendering are elided in the description: `match_historical_eq_nil` below
shows this branch is unreachable.) -/
def match_historical_exploits (code : Str) : List Finding :=
  load_historical_data.filterMap (fun e =>
    if containsSub e.pattern_signature
        ((lowerStr code).filter (fun c => c != '_' && c != ' ')) then
      some { ftype := e.exploit_type, severity := 10,
             description := s2l ("Code matches pattern from $") ++ natStr e.loss_amount ++
               s2l (" exploit on ") ++ e.date,
             location := s2l ("Pattern match"), confidence := ⟨88, 100, by decide⟩,
             recommendation := s2l ("This pattern caused major losses. Review immediately.") }
    else none)

/-! ## Aggregation -/

/-- Embedding of `_calculate_security_score`: start at 100, subtract
`severity × confidence` per finding, truncate to an integer, floor at 0. -/
def calculate_security_score (vulns : List Finding) : Int :=
  if vulns.isEmpty then 100
  else
    let score := vulns.foldl (fun s v => s.sub ((Frac.ofInt v.severity).mul v.confidence)) (Frac.ofInt 100)
    max 0 score.trunc

/-- Embedding of `_determine_risk_level`. -/
def determine_risk_level (security_score : Int) (vulns : List Finding) : Str :=
  let critical_vulns := vulns.countP (fun v => decide (9 ≤ v.severity))
  if 0 < critical_vulns ∨ security_score < 30 then s2l ("CRITICAL")
  else if security_score < 50 then s2l ("HIGH")
  else if security_score < 70 then s2l ("MEDIUM")
  else if security_score < 85 then s2l ("LOW")
  else s2l ("MINIMAL")

/-- The safe-indicator list of `_is_quantum_resistant`. -/
def quantum_safe_indicators : List Str :=
  [s2l ("dilithium"), s2l ("sphincs"), s2l ("kyber"), s2l ("ntru"),
   s2l ("quantum_resistant"), s2l ("post_quantum"), s2l ("sha3"), s2l ("sha256")]

/-- The vulnerable-indicator list of `_is_quantum_resistant`. -/
def quantum_vulnerable_indicators : List Str :=
  [s2l ("ed25519"), s2l ("secp256k1"), s2l ("ecdsa"), s2l ("rsa")]

/-- The `has_safe` test of `_is_quantum_resistant`. -/
def has_safe (code : Str) : Bool :=
  quantum_safe_indicators.any (fun i => containsSub i (lowerStr code))

/-- The `has_vulnerable` test of `_is_quantum_resistant`. -/
def has_vulnerable (code : Str) : Bool :=
  quantum_vulnerable_indicators.any (fun i => containsSub i (lowerStr code))

/-- Embedding of `_is_quantum_resistant`. -/
def is_quantum_resistant (code : Str) : Bool :=
  has_safe code || !(has_vulnerable code)

/-- Stable insertion into a list sorted by descending severity: the new
element goes after every element of greater-or-equal severity, which is
the stability guarantee of Python `sorted(..., reverse=True)`. -/
def insertDesc (v : Finding) : List Finding → List Finding
  | [] => [v]
  | w :: ws => if v.severity ≤ w.severity then w :: insertDesc v ws else v :: w :: ws

/-- Python `sorted(vulns, key=severity, reverse=True)` (stable). -/
def sortBySeverityDesc (vulns : List Finding) : List Finding :=
  vulns.foldl (fun acc v => insertDesc v acc) []

/-- First fixed closing recommendation. -/
def audit_recommendation : Str :=
  s2l ("Consider professional audit from Oak Security, Zellic, or Quantstamp")

/-- Second fixed closing recommendation. -/
def pq_recommendation : Str :=
  s2l ("Implement quantum-resistant cryptography for future-proofing")

/-- The `[TYPE] recommendation` rendering of one finding. -/
def tagged_recommendation (v : Finding) : Str :=
  s2l ("[") ++ v.ftype.map Char.toUpper ++ s2l ("] ") ++ v.recommendation

/-- The dedup loop over the most severe findings; `seen` collects the raw
recommendation texts already appended. -/
def recLoop : List Finding → List Str → List Str
  | [], _ => []
  | v :: vs, seen =>
    if !v.recommendation.isEmpty && !seen.contains v.recommendation then
      tagged_recommendation v :: recLoop vs (v.recommendation :: seen)
    else recLoop vs seen

/-- The synthetic line about the findings omitted from the top five. -/
def more_line (k : Nat) : Str :=
  s2l ("Address ") ++ natStr k ++ s2l (" additional findings in full report")

/-- Embedding of `_generate_recommendations`. -/
def generate_recommendations (vulns : List Finding) : List Str :=
  let sorted_vulns := sortBySeverityDesc vulns
  let recs := recLoop (sorted_vulns.take 5) []
  let recs2 := recs ++ (if 5 < vulns.length then [more_line (vulns.length - 5)] else [])
  recs2 ++ [audit_recommendation, pq_recommendation]

/-- The `DetectionResult` dataclass. -/
structure DetectionResult where
  program_address : Str
  vulnerabilities : List Finding
  security_score : Int
  risk_level : Str
  recommendations : List Str
  quantum_resistant : Bool
  timestamp : Int
deriving DecidableEq

/-- Embedding of `analyze_program`, the pipeline entry point.  `time.time()` is an
external input, so the timestamp is an explicit parameter. -/
def analyze_program (program_code program_address : Str) (timestamp : Int) : DetectionResult :=
  let vulnerabilities :=
    (initialize_patterns.map (fun p => detect_pattern program_code p)).flatten
    ++ ml_anomaly_detection program_code
    ++ assess_quantum_resistance program_code
    ++ match_historical_exploits program_code
  let security_score := calculate_security_score vulnerabilities
  { program_address := program_address, vulnerabilities := vulnerabilities,
    security_score := security_score,
    risk_level := determine_risk_level security_score vulnerabilities,
    recommendations := generate_recommendations vulnerabilities,
    quantum_resistant := is_quantum_resistant program_code,
    timestamp := timestamp }

/-! ## Helper lemmas -/

/-- Boolean `contains` on string lists agrees with membership. -/
theorem contains_iff_mem_str {l : List Str} {a : Str} : l.contains a = true ↔ a ∈ l := by
  rw [List.contains_iff_exists_mem_beq]
  simp

/-- Every character of a substring found by `containsSub` occurs in the
scanned string. -/
theorem mem_of_containsSub {sub : Str} : ∀ {t : Str}, containsSub sub t = true →
    ∀ c ∈ sub, c ∈ t := by
  intro t
  induction t with
  | nil =>
    intro h c hc
    unfold containsSub at h
    rw [List.isEmpty_iff] at h
    subst h
    cases hc
  | cons d rest ih =>
    intro h c hc
    unfold containsSub at h
    rw [Bool.or_eq_true] at h
    rcases h with h | h
    · exact (List.isPrefixOf_iff_prefix.mp h).subset hc
    · exact List.mem_cons_of_mem d (ih h c hc)

/-- The historical matcher can never fire: every registry signature contains
an underscore, while the scanned code is normalised by deleting all
underscores before the containment test. -/
theorem match_historical_eq_nil (code : Str) : match_historical_exploits code = [] := by
  have key : ∀ sig : Str, '_' ∈ sig →
      containsSub sig ((lowerStr code).filter (fun c => c != '_' && c != ' ')) = false := by
    intro sig hm
    by_contra hc
    rw [Bool.not_eq_false] at hc
    have h2 := mem_of_containsSub hc '_' hm
    have h3 := List.mem_filter.mp h2
    simp at h3
  have h1 := key (s2l ("external_call_before_state_update")) (by decide)
  have h2 := key (s2l ("missing_authority_check")) (by decide)
  unfold match_historical_exploits load_historical_data
  simp [List.filterMap_cons, h1, h2]

/-- Every finding emitted by `detect_pattern` carries the pattern's
vulnerability type. -/
theorem ftype_of_mem_detect_pattern {code : Str} {p : VulnerabilityPattern} {f : Finding}
    (h : f ∈ detect_pattern code p) : f.ftype = p.vuln_type := by
  unfold detect_pattern at h
  rw [List.mem_filterMap] at h
  obtain ⟨span, _, hf⟩ := h
  dsimp only at hf
  split at hf
  · cases hf
    rfl
  · cases hf

/-- Every finding emitted by `_ml_anomaly_detection` has type
`anomaly_detected`. -/
theorem ftype_of_mem_ml {code : Str} {f : Finding}
    (h : f ∈ ml_anomaly_detection code) : f.ftype = s2l ("anomaly_detected") := by
  unfold ml_anomaly_detection at h
  dsimp only at h
  split at h
  · rw [List.mem_singleton] at h
    subst h
    rfl
  · cases h

/-- Every finding emitted by `_assess_quantum_resistance` has type
`quantum_vulnerable`. -/
theorem ftype_of_mem_quantum {code : Str} {f : Finding}
    (h : f ∈ assess_quantum_resistance code) : f.ftype = s2l ("quantum_vulnerable") := by
  unfold assess_quantum_resistance at h
  rw [List.mem_flatten] at h
  obtain ⟨l, hl, hf⟩ := h
  rw [List.mem_map] at hl
  obtain ⟨p, _, rfl⟩ := hl
  rw [List.mem_filterMap] at hf
  obtain ⟨ind, _, hi⟩ := hf
  split at hi
  · cases hi
    rfl
  · cases hi

/-- The finding list of `analyze_program`, unfolded. -/
theorem analyze_program_vulnerabilities (code pid : Str) (ts : Int) :
    (analyze_program code pid ts).vulnerabilities =
      (initialize_patterns.map (fun p => detect_pattern code p)).flatten
      ++ ml_anomaly_detection code ++ assess_quantum_resistance code
      ++ match_historical_exploits code := rfl

/-! ## Claim C10 -/

/-- C10: for every input source the historical-exploit matcher returns the
empty sequence — no severity-10, confidence-0.88 historical finding is ever
emitted — because every registry signature contains underscores while the
source is normalised by deleting all underscores and spaces before the
containment test. -/
theorem historical_matcher_always_empty (code : Str) :
    match_historical_exploits code = [] :=
  match_historical_eq_nil code

/-! ## Claim C6 -/

/-- C6: analysing the empty source string returns a result whose finding
sequence is empty, whose security score is exactly 100, and whose risk
level is `MINIMAL` (the embedded pipeline is a total function, so no error
is possible). -/
theorem analyze_empty_source (pid : Str) (ts : Int) :
    (analyze_program (s2l ("")) pid ts).vulnerabilities = [] ∧
    (analyze_program (s2l ("")) pid ts).security_score = 100 ∧
    (analyze_program (s2l ("")) pid ts).risk_level = s2l ("MINIMAL") :=
  ⟨rfl, rfl, rfl⟩

/-! ## Claim C1 -/

/-- The missing-signer snippet of `test_detects_missing_signer_check`:
a transfer-like call with no signer or guard check before it. -/
def c1_failing_input : Str :=
  s2l ("\n        pub fn withdraw(ctx: Context<Withdraw>, amount: u64) -> Result<()> \x7b\n            let vault = &mut ctx.accounts.vault;\n            // No signer check before transfer\n            transfer(vault, amount)?;\n            Ok(())\n        \x7d\n        ")

/-- C1 is violated by the code: on the repository's own test snippet — a
transfer-like call with no signer check before it — the analysis produces
no finding at all, hence none of severity ≥ 9.  The missing-signer pattern
matches, but its contextual confidence is 0.80, short of the 0.85
threshold, because the snippet contains no `unsafe` or `unwrap()` marker. -/
theorem c1_no_critical_finding_on_missing_signer :
    (analyze_program c1_failing_input (s2l ("prog")) 0).vulnerabilities = [] := by
  rfl

/-! ## Claim C2 -/

/-- The reentrancy snippet of `test_detects_reentrancy_pattern`: an external
invocation followed by a state-balance mutation. -/
def c2_failing_input : Str :=
  s2l ("\n        invoke(&transfer_ix, &[vault.to_account_info()])?;\n        vault.balance -= amount;\n        ")

/-- C2 is violated by the code: on the repository's own test snippet — an
`invoke` followed by a balance mutation — the analysis produces no finding
at all, hence none of category `reentrancy`.  The reentrancy regex requires
a literal `state` token followed by `=` on the line after the invocation,
and its 0.95 confidence threshold is only reachable when the context holds
both an `unsafe` and an `unwrap()` marker and no `require!`. -/
theorem c2_no_reentrancy_finding_on_invoke_then_mutation :
    (analyze_program c2_failing_input (s2l ("prog")) 0).vulnerabilities = [] := by
  rfl

/-! ## Claim C3 -/

/-- C3 is violated by the code: no input whatsoever can produce a finding
of category `hardcoded_key` — the detector has no such pattern, and its
four detection sources only emit the five pattern types, `anomaly_detected`,
`quantum_vulnerable`, `reentrancy` and `unauthorized_access`. -/
theorem no_hardcoded_key_finding (code pid : Str) (ts : Int) :
    (analyze_program code pid ts).vulnerabilities.all
      (fun f => !(f.ftype == s2l ("hardcoded_key"))) = true := by
  rw [List.all_eq_true]
  intro f hf
  rw [analyze_program_vulnerabilities] at hf
  rw [List.mem_append, List.mem_append, List.mem_append] at hf
  rcases hf with ((hf | hf) | hf) | hf
  · rw [List.mem_flatten] at hf
    obtain ⟨l, hl, hf⟩ := hf
    rw [List.mem_map] at hl
    obtain ⟨p, hp, rfl⟩ := hl
    have ht := ftype_of_mem_detect_pattern hf
    fin_cases hp <;> rw [ht] <;> decide
  · rw [ftype_of_mem_ml hf]
    decide
  · rw [ftype_of_mem_quantum hf]
    decide
  · rw [match_historical_eq_nil] at hf
    cases hf

/-! ## Claim C4 -/

/-- Specification-side weighted deduction: the sum over the findings of
severity × confidence, as a rational number. -/
def weighted_deduction (vulns : List Finding) : ℚ :=
  (vulns.map (fun v => (v.severity : ℚ) * v.confidence.toRat)).sum

/-- The subtraction fold of `_calculate_security_score` computes its start
value minus the weighted deduction. -/
theorem foldl_sub_toRat (vulns : List Finding) (a : Frac) :
    (vulns.foldl (fun s v => s.sub ((Frac.ofInt v.severity).mul v.confidence)) a).toRat
      = a.toRat - weighted_deduction vulns := by
  induction vulns generalizing a with
  | nil => simp [weighted_deduction]
  | cons v vs ih =>
    rw [List.foldl_cons, ih, Frac.toRat_sub, Frac.toRat_mul, Frac.toRat_ofInt]
    unfold weighted_deduction
    rw [List.map_cons, List.sum_cons]
    ring

/-- Truncation `ratTrunc` is bounded by any nonnegative integer bound of its argument. -/
theorem ratTrunc_le_of_le {q : ℚ} {z : Int} (hz : 0 ≤ z) (h : q ≤ (z : ℚ)) :
    ratTrunc q ≤ z := by
  unfold ratTrunc
  split
  · have : 0 ≤ ⌊-q⌋ := by
      next hneg => exact Int.le_floor.mpr (by push_cast; linarith)
    omega
  · calc ⌊q⌋ ≤ ⌊(z : ℚ)⌋ := Int.floor_le_floor h
      _ = z := Int.floor_intCast z

/-- C4: the security score of the empty finding sequence is exactly 100;
for every finding sequence with nonnegative severities and confidences the
score equals 100 minus the sum of severity × confidence, truncated to an
integer and clamped to [0, 100]; and the result always lies in [0, 100]. -/
theorem security_score_formula :
    calculate_security_score [] = 100 ∧
    ∀ vulns : List Finding,
      (∀ v ∈ vulns, 0 ≤ v.severity ∧ 0 ≤ v.confidence.n) →
        (calculate_security_score vulns
            = max 0 (min 100 (ratTrunc (100 - weighted_deduction vulns))) ∧
          0 ≤ calculate_security_score vulns ∧ calculate_security_score vulns ≤ 100) := by
  constructor
  · rfl
  · intro vulns hv
    have hconf : ∀ v ∈ vulns, 0 ≤ v.confidence.toRat := by
      intro v hm
      have h2 := (hv v hm).2
      unfold Frac.toRat
      apply div_nonneg _ (le_of_lt v.confidence.dQ_pos)
      exact_mod_cast h2
    have hsum : 0 ≤ weighted_deduction vulns := by
      unfold weighted_deduction
      apply List.sum_nonneg
      intro x hx
      rw [List.mem_map] at hx
      obtain ⟨v, hm, rfl⟩ := hx
      have h1 : (0:ℚ) ≤ (v.severity : ℚ) := by exact_mod_cast (hv v hm).1
      exact mul_nonneg h1 (hconf v hm)
    by_cases he : vulns.isEmpty = true
    · rw [List.isEmpty_iff] at he
      subst he
      refine ⟨?_, by decide, by decide⟩
      have hw : weighted_deduction [] = 0 := by simp [weighted_deduction]
      rw [hw]
      have ht : ratTrunc ((100 : ℚ) - 0) = 100 := by norm_num [ratTrunc]
      rw [ht]
      decide
    · have hscore : calculate_security_score vulns
          = max 0 (ratTrunc (100 - weighted_deduction vulns)) := by
        unfold calculate_security_score
        rw [if_neg he]
        dsimp only
        rw [Frac.trunc_toRat, foldl_sub_toRat, Frac.toRat_ofInt]
        norm_num
      have hle : ratTrunc (100 - weighted_deduction vulns) ≤ 100 :=
        ratTrunc_le_of_le (by decide) (by push_cast; linarith)
      refine ⟨?_, ?_, ?_⟩
      · rw [hscore, min_eq_right hle]
      · rw [hscore]
        exact le_max_left 0 _
      · rw [hscore]
        exact max_le (by decide) hle

/-- Concrete finding for the C4 witness. -/
def c4_witness_finding : Finding :=
  { ftype := s2l ("reentrancy"), severity := 10, description := s2l (""),
    location := s2l (""), confidence := ⟨1, 2, by decide⟩, recommendation := s2l ("") }

/-- Witness for `security_score_formula` at a concrete finding list. -/
theorem security_score_formula_witness :
    (∀ v ∈ [c4_witness_finding], 0 ≤ v.severity ∧ 0 ≤ v.confidence.n) ∧
    (calculate_security_score [c4_witness_finding]
        = max 0 (min 100 (ratTrunc (100 - weighted_deduction [c4_witness_finding]))) ∧
      0 ≤ calculate_security_score [c4_witness_finding] ∧
      calculate_security_score [c4_witness_finding] ≤ 100) :=
  ⟨by decide, security_score_formula.2 [c4_witness_finding] (by decide)⟩

/-! ## Claim C5 -/

/-- The §4.6 risk rule, written from the specification's words: the
critical override first, then the 30/50/70/85 bands. -/
def risk_level_spec (score : Int) (vulns : List Finding) : Str :=
  if (vulns.any (fun v => decide (9 ≤ v.severity)) = true) ∨ score < 30 then s2l ("CRITICAL")
  else if score < 50 then s2l ("HIGH")
  else if score < 70 then s2l ("MEDIUM")
  else if score < 85 then s2l ("LOW")
  else s2l ("MINIMAL")

/-- C5: the code's risk level agrees with the specification's priority rule
(critical override first, then the 30/50/70/85 bands), and any finding of
severity ≥ 9 forces CRITICAL regardless of the numeric score. -/
theorem risk_level_priority (score : Int) (vulns : List Finding) :
    determine_risk_level score vulns = risk_level_spec score vulns ∧
    ((∃ v ∈ vulns, 9 ≤ v.severity) → determine_risk_level score vulns = s2l ("CRITICAL")) := by
  have e1 : (0 < vulns.countP (fun v => decide (9 ≤ v.severity)) ∨ score < 30)
      ↔ ((vulns.any (fun v => decide (9 ≤ v.severity)) = true) ∨ score < 30) := by
    rw [List.countP_pos_iff, List.any_eq_true]
  constructor
  · unfold determine_risk_level risk_level_spec
    dsimp only
    exact if_congr e1 rfl rfl
  · rintro ⟨v, hm, hsev⟩
    unfold determine_risk_level
    dsimp only
    rw [if_pos (Or.inl (List.countP_pos_iff.mpr ⟨v, hm, by simpa using hsev⟩))]

/-- Concrete finding for the C5 witness. -/
def c5_witness_finding : Finding :=
  { ftype := s2l ("missing_signer_check"), severity := 9, description := s2l (""),
    location := s2l (""), confidence := ⟨4, 5, by decide⟩, recommendation := s2l ("") }

/-- Witness: a single severity-9 finding forces CRITICAL at score 100, a
score that alone would read MINIMAL. -/
theorem risk_level_priority_witness :
    (∃ v ∈ [c5_witness_finding], 9 ≤ v.severity) ∧
    determine_risk_level 100 [c5_witness_finding] = s2l ("CRITICAL") :=
  ⟨⟨c5_witness_finding, by decide, by decide⟩,
    (risk_level_priority 100 [c5_witness_finding]).2
      ⟨c5_witness_finding, by decide, by decide⟩⟩

/-! ## Claim C8 -/

/-- C8 counterexample: on the source `AES-128` the quantum assessor emits a
quantum-unsafe finding, no quantum-safe indicator is present, and yet
`is_quantum_resistant` returns true — the vulnerable-indicator list of
`_is_quantum_resistant` omits the symmetric-cipher indicators that the
assessor flags. -/
theorem is_resistant_counterexample :
    (assess_quantum_resistance (s2l ("AES-128"))).length = 1 ∧
    has_safe (s2l ("AES-128")) = false ∧
    is_quantum_resistant (s2l ("AES-128")) = true :=
  ⟨rfl, rfl, rfl⟩

/-- The classical-signature-scheme finding emitted by the quantum
assessor. -/
def classical_sig_finding : Finding :=
  { ftype := s2l ("quantum_vulnerable"), severity := 6,
    description := s2l ("Uses Classical Signature Scheme which is vulnerable to quantum attacks"),
    location := s2l ("Cryptographic implementation"), confidence := ⟨95, 100, by decide⟩,
    recommendation := s2l ("Migrate to CRYSTALS-Dilithium or SPHINCS+") }

/-- Each of the four signature-scheme indicators forces the quantum
assessor to emit the classical-signature finding. -/
theorem classical_sig_mem {code : Str} {i : Str}
    (hi : i ∈ quantum_vulnerable_indicators) (hc : containsSub i (lowerStr code) = true) :
    classical_sig_finding ∈ assess_quantum_resistance code := by
  unfold assess_quantum_resistance
  fin_cases hi
  · refine List.mem_flatten.mpr ⟨_, List.mem_map.mpr ⟨_, List.mem_cons_self _ _, rfl⟩,
      List.mem_filterMap.mpr ⟨s2l ("ed25519"), by decide, ?_⟩⟩
    show (if containsSub (s2l ("ed25519")) (lowerStr code) && true
        then some classical_sig_finding else none) = some classical_sig_finding
    rw [hc]
    rfl
  · refine List.mem_flatten.mpr ⟨_, List.mem_map.mpr ⟨_, List.mem_cons_self _ _, rfl⟩,
      List.mem_filterMap.mpr ⟨s2l ("secp256k1"), by decide, ?_⟩⟩
    show (if containsSub (s2l ("secp256k1")) (lowerStr code) && true
        then some classical_sig_finding else none) = some classical_sig_finding
    rw [hc]
    rfl
  · refine List.mem_flatten.mpr ⟨_, List.mem_map.mpr ⟨_, List.mem_cons_self _ _, rfl⟩,
      List.mem_filterMap.mpr ⟨s2l ("ECDSA"), by decide, ?_⟩⟩
    show (if containsSub (s2l ("ecdsa")) (lowerStr code) && true
        then some classical_sig_finding else none) = some classical_sig_finding
    rw [hc]
    rfl
  · refine List.mem_flatten.mpr ⟨_, List.mem_map.mpr ⟨_, List.mem_cons_self _ _, rfl⟩,
      List.mem_filterMap.mpr ⟨s2l ("RSA"), by decide, ?_⟩⟩
    show (if containsSub (s2l ("rsa")) (lowerStr code) && true
        then some classical_sig_finding else none) = some classical_sig_finding
    rw [hc]
    rfl

/-- A vulnerable indicator in the source forces the assessor to emit at
least one finding. -/
theorem assess_nonempty_of_vulnerable {code : Str} (h : has_vulnerable code = true) :
    assess_quantum_resistance code ≠ [] := by
  unfold has_vulnerable at h
  rw [List.any_eq_true] at h
  obtain ⟨i, hi, hc⟩ := h
  exact List.ne_nil_of_mem (classical_sig_mem hi hc)

/-- C8 (amended): `is_resistant` returns the OR of the safe-indicator test
and the negated vulnerable-indicator test, and whenever one of the
signature-scheme indicators ed25519 / secp256k1 / ECDSA / RSA occurs in the
source — which makes the assessor emit a quantum-unsafe finding — and no
quantum-safe indicator is present, `is_resistant` returns false.  (By the
counterexample, a quantum-unsafe finding for the symmetric-cipher
indicators AES-128/AES-192 alone does not make it false.) -/
theorem is_resistant_amended (code : Str) :
    is_quantum_resistant code = (has_safe code || !(has_vulnerable code)) ∧
    (has_vulnerable code = true → assess_quantum_resistance code ≠ []) ∧
    (has_vulnerable code = true → has_safe code = false →
      is_quantum_resistant code = false) := by
  refine ⟨rfl, assess_nonempty_of_vulnerable, ?_⟩
  intro hv hs
  unfold is_quantum_resistant
  rw [hv, hs]
  rfl

/-- Witness for `is_resistant_amended` at the source `ed25519`. -/
theorem is_resistant_amended_witness :
    has_vulnerable (s2l ("ed25519")) = true ∧ has_safe (s2l ("ed25519")) = false ∧
    assess_quantum_resistance (s2l ("ed25519")) ≠ [] ∧
    is_quantum_resistant (s2l ("ed25519")) = false :=
  ⟨rfl, rfl, (is_resistant_amended (s2l ("ed25519"))).2.1 rfl,
    (is_resistant_amended (s2l ("ed25519"))).2.2 rfl rfl⟩

/-! ## Claim C7 -/

/-- A boolean prefix bounds lengths. -/
theorem isPrefixOf_length_le {p t : Str} (h : p.isPrefixOf t = true) :
    p.length ≤ t.length :=
  (List.isPrefixOf_iff_prefix.mp h).length_le

/-- Occurrences counted by `countOccF` are non-overlapping: the pattern
length times the count never exceeds the scanned length. -/
theorem countOccF_mul_le (pat : Str) : ∀ (f : Nat) (t : Str),
    pat.length * countOccF pat f t ≤ t.length := by
  intro f
  induction f with
  | zero =>
    intro t
    rw [countOccF]
    simp
  | succ f ih =>
    intro t
    match t with
    | [] =>
      rw [countOccF]
      simp
    | c :: rest =>
      rw [countOccF]
      split
      · next hcond =>
        rw [Bool.and_eq_true] at hcond
        have hlen := isPrefixOf_length_le hcond.1
        have hih := ih ((c :: rest).drop pat.length)
        rw [List.length_drop] at hih
        have hexp : pat.length * (1 + countOccF pat f ((c :: rest).drop pat.length))
            = pat.length + pat.length * countOccF pat f ((c :: rest).drop pat.length) := by
          ring
        rw [hexp]
        omega
      · exact le_trans (ih rest) (by simp)

/-- Count bound for `countOcc`: pattern length times occurrence count is at most the
scanned length. -/
theorem countOcc_mul_le (pat code : Str) : pat.length * countOcc pat code ≤ code.length :=
  countOccF_mul_le pat code.length code

/-- The code length is among the features, so it bounds the feature
maximum. -/
theorem len_le_max_feature (code : Str) :
    code.length ≤ (feature_counts code).foldr max 0 :=
  le_max_left _ _

/-- The check-count feature of `extract_features`, unfolded. -/
theorem feature3_eq (code : Str) :
    (extract_features code).getD 3 (Frac.ofInt 0)
      = (Frac.ofInt (countOcc (s2l ("require!")) code)).div
          ((Frac.ofInt ((((feature_counts code).foldr max 0 : Nat)) : Int)).add
            ⟨1, 10000000000, by decide⟩) :=
  rfl

/-- The unsafe-count feature of `extract_features`, unfolded. -/
theorem feature7_eq (code : Str) :
    (extract_features code).getD 7 (Frac.ofInt 0)
      = (Frac.ofInt (countOcc (s2l ("unsafe")) code)).div
          ((Frac.ofInt ((((feature_counts code).foldr max 0 : Nat)) : Int)).add
            ⟨1, 10000000000, by decide⟩) :=
  rfl

/-- Value of a normalised feature. -/
theorem norm_feature_toRat (a m : Nat) :
    ((Frac.ofInt a).div ((Frac.ofInt m).add ⟨1, 10000000000, by decide⟩)).toRat
      = (a : ℚ) / ((m : ℚ) + 1 / 10000000000) := by
  rw [Frac.toRat_div, Frac.toRat_add, Frac.toRat_ofInt, Frac.toRat_ofInt]
  norm_num [Frac.toRat]

/-- A normalised feature `count / (max + ε)` lies in `[0, 1/k]` whenever
`k × count ≤ length`. -/
theorem norm_feature_bounds {cnt k : Nat} (code : Str) (hk : 0 < k)
    (hc : k * cnt ≤ code.length) :
    0 ≤ (cnt : ℚ) / (((feature_counts code).foldr max 0 : Nat) + 1 / 10000000000 : ℚ) ∧
    ((cnt : ℚ) / (((feature_counts code).foldr max 0 : Nat) + 1 / 10000000000 : ℚ))
      ≤ 1 / (k : ℚ) := by
  have hden : (0:ℚ) < (((feature_counts code).foldr max 0 : Nat) : ℚ) + 1 / 10000000000 := by
    positivity
  constructor
  · exact div_nonneg (Nat.cast_nonneg _) (le_of_lt hden)
  · by_cases hL : code.length = 0
    · have hc0 : cnt = 0 := by
        rw [hL, Nat.le_zero] at hc
        rcases Nat.mul_eq_zero.mp hc with h | h
        · omega
        · exact h
      rw [hc0]
      norm_num
    · have hLpos : 0 < code.length := Nat.pos_of_ne_zero hL
      have hLM : ((code.length : Nat) : ℚ) ≤ (((feature_counts code).foldr max 0 : Nat) : ℚ) := by
        exact_mod_cast len_le_max_feature code
      have hLQ : (0:ℚ) < ((code.length : Nat) : ℚ) := by exact_mod_cast hLpos
      have hkQ : (0:ℚ) < (k : ℚ) := by exact_mod_cast hk
      have step1 : (cnt : ℚ) / ((((feature_counts code).foldr max 0 : Nat) : ℚ) + 1 / 10000000000)
          ≤ (cnt : ℚ) / ((code.length : Nat) : ℚ) :=
        div_le_div_of_nonneg_left (Nat.cast_nonneg _) hLQ (by linarith)
      have step2 : (cnt : ℚ) / ((code.length : Nat) : ℚ) ≤ 1 / (k : ℚ) := by
        rw [div_le_div_iff₀ hLQ hkQ]
        have hcQ : (k : ℚ) * (cnt : ℚ) ≤ ((code.length : Nat) : ℚ) := by exact_mod_cast hc
        linarith
      linarith

/-- The anomaly score of `_compute_anomaly_score`, as a rational number. -/
theorem compute_anomaly_toRat (code : Str) :
    (compute_anomaly_score (extract_features code)).toRat
      = min ((|((extract_features code).getD 3 (Frac.ofInt 0)).toRat - 1/10|
          + |((extract_features code).getD 7 (Frac.ofInt 0)).toRat - 1/100| * 5) / 2) 1 := by
  have e10 : ((⟨1, 10, by decide⟩ : Frac)).toRat = 1/10 := by norm_num [Frac.toRat]
  have e100 : ((⟨1, 100, by decide⟩ : Frac)).toRat = 1/100 := by norm_num [Frac.toRat]
  simp only [compute_anomaly_score]
  rw [Frac.toRat_fmin, Frac.toRat_div, Frac.toRat_add, Frac.toRat_mul,
    Frac.toRat_fabs, Frac.toRat_fabs, Frac.toRat_sub, Frac.toRat_sub,
    Frac.toRat_ofInt, Frac.toRat_ofInt, Frac.toRat_ofInt, e10, e100]
  norm_num

/-- The anomaly score is below the 0.7 emission threshold for every input:
the check feature is at most 1/8 of the normalisation, the unsafe feature
at most 1/6, so the score is at most 53/120. -/
theorem anomaly_score_lt_7_10 (code : Str) :
    (compute_anomaly_score (extract_features code)).toRat < 7/10 := by
  rw [compute_anomaly_toRat, feature3_eq, feature7_eq, norm_feature_toRat, norm_feature_toRat]
  have hc3 : 8 * countOcc (s2l ("require!")) code ≤ code.length := by
    have h := countOcc_mul_le (s2l ("require!")) code
    have h8 : (s2l ("require!")).length = 8 := rfl
    rw [h8] at h
    exact h
  have hc7 : 6 * countOcc (s2l ("unsafe")) code ≤ code.length := by
    have h := countOcc_mul_le (s2l ("unsafe")) code
    have h6 : (s2l ("unsafe")).length = 6 := rfl
    rw [h6] at h
    exact h
  obtain ⟨h3a, h3b⟩ := norm_feature_bounds code (by decide : 0 < 8) hc3
  obtain ⟨h7a, h7b⟩ := norm_feature_bounds code (by decide : 0 < 6) hc7
  have habs3 : |(countOcc (s2l ("require!")) code : ℚ)
      / (((feature_counts code).foldr max 0 : Nat) + 1 / 10000000000 : ℚ) - 1/10| ≤ 1/10 := by
    rw [abs_sub_le_iff]
    constructor
    · have : (1:ℚ)/8 ≤ 1/5 := by norm_num
      linarith
    · linarith
  have habs7 : |(countOcc (s2l ("unsafe")) code : ℚ)
      / (((feature_counts code).foldr max 0 : Nat) + 1 / 10000000000 : ℚ) - 1/100| ≤ 47/300 := by
    rw [abs_sub_le_iff]
    constructor
    · linarith
    · linarith
  calc min ((|(countOcc (s2l ("require!")) code : ℚ)
          / (((feature_counts code).foldr max 0 : Nat) + 1 / 10000000000 : ℚ) - 1/10|
        + |(countOcc (s2l ("unsafe")) code : ℚ)
          / (((feature_counts code).foldr max 0 : Nat) + 1 / 10000000000 : ℚ) - 1/100| * 5) / 2) 1
      ≤ (|(countOcc (s2l ("require!")) code : ℚ)
          / (((feature_counts code).foldr max 0 : Nat) + 1 / 10000000000 : ℚ) - 1/10|
        + |(countOcc (s2l ("unsafe")) code : ℚ)
          / (((feature_counts code).foldr max 0 : Nat) + 1 / 10000000000 : ℚ) - 1/100| * 5) / 2 :=
      min_le_left _ _
    _ ≤ (1/10 + (47/300) * 5) / 2 := by linarith
    _ < 7/10 := by norm_num

/-- The claim's anomaly-score formula: deviations of the normalised check
and unsafe features from 0.1 and 0.01, combined as
`(checks_dev + 5 × unsafe_dev) / 2` and clamped to at most 1. -/
def anomaly_score_spec (code : Str) : ℚ :=
  min ((|((extract_features code).getD 3 (Frac.ofInt 0)).toRat - 1/10|
      + 5 * |((extract_features code).getD 7 (Frac.ofInt 0)).toRat - 1/100|) / 2) 1

/-- The anomaly finding described by the claim for the over-threshold
branch: category `anomaly`, severity `round(score × 10)`, confidence the
score, recommending manual review. -/
def anomaly_finding_spec (code : Str) : Finding :=
  { ftype := s2l ("anomaly"),
    severity := round ((compute_anomaly_score (extract_features code)).toRat * 10),
    description := s2l ("Unusual code patterns detected"),
    location := s2l ("Multiple locations"),
    confidence := compute_anomaly_score (extract_features code),
    recommendation := s2l ("Manual review recommended for unusual patterns") }

/-- C7: for every source the anomaly score equals the claim's formula —
`(checks_deviation + 5 × unsafe_deviation) / 2` over the max-normalised
feature vector, clamped to at most 1 — and the detector emits exactly one
anomaly finding, with severity `round(score × 10)` and confidence the
score, when the score exceeds 0.7, and no finding otherwise.  (The
over-threshold branch is in fact unreachable: `anomaly_score_lt_7_10`.) -/
theorem anomaly_detection_spec (code : Str) :
    (compute_anomaly_score (extract_features code)).toRat = anomaly_score_spec code ∧
    (7/10 < (compute_anomaly_score (extract_features code)).toRat →
      ml_anomaly_detection code = [anomaly_finding_spec code]) ∧
    ((compute_anomaly_score (extract_features code)).toRat ≤ 7/10 →
      ml_anomaly_detection code = []) := by
  refine ⟨?_, ?_, ?_⟩
  · rw [compute_anomaly_toRat]
    unfold anomaly_score_spec
    congr 1
    ring
  · intro h
    exact absurd h (not_lt.mpr (le_of_lt (anomaly_score_lt_7_10 code)))
  · intro h
    have hnot : ¬ ((⟨7, 10, by decide⟩ : Frac).lt
        (compute_anomaly_score (extract_features code)) = true) := by
      rw [Frac.lt_iff]
      have e : ((⟨7, 10, by decide⟩ : Frac)).toRat = 7/10 := by norm_num [Frac.toRat]
      rw [e]
      exact not_lt.mpr h
    unfold ml_anomaly_detection
    dsimp only
    rw [if_neg hnot]

/-- Witness for `anomaly_detection_spec` at the one-character source `x`. -/
theorem anomaly_detection_spec_witness :
    (compute_anomaly_score (extract_features (s2l ("x")))).toRat ≤ 7/10 ∧
    ml_anomaly_detection (s2l ("x")) = [] := by
  have hb : (compute_anomaly_score (extract_features (s2l ("x")))).le ⟨7, 10, by decide⟩
      = true := by rfl
  have h := (Frac.le_iff _ _).mp hb
  have e : ((⟨7, 10, by decide⟩ : Frac)).toRat = 7/10 := by norm_num [Frac.toRat]
  rw [e] at h
  exact ⟨h, (anomaly_detection_spec (s2l ("x"))).2.2 h⟩

/-! ## Claim C9 -/

/-- C9 counterexample data: a finding whose category tag contains `]`. -/
def c9_finding_a : Finding :=
  { ftype := s2l ("a] b"), severity := 5, description := s2l (""), location := s2l (""),
    confidence := ⟨1, 2, by decide⟩, recommendation := s2l ("c") }

/-- Companion to `c9_finding_a`: a distinct recommendation text whose tagged
rendering collides with that of `c9_finding_a`. -/
def c9_finding_b : Finding :=
  { ftype := s2l ("a"), severity := 5, description := s2l (""), location := s2l (""),
    confidence := ⟨1, 2, by decide⟩, recommendation := s2l ("B] c") }

/-- C9 counterexample: the recommendation list can contain duplicate
strings — the dedup set keys on the raw recommendation text, and two
distinct texts can render to the same `[TAG] text` entry when a category
tag contains `]`. -/
theorem recommendations_dup_counterexample :
    ¬ (generate_recommendations [c9_finding_a, c9_finding_b]).Nodup := by decide

/-- Elements produced by the dedup loop: each is the tagged rendering of a
listed finding whose recommendation text is nonempty and not yet seen. -/
theorem mem_recLoop {x : Str} : ∀ (vs : List Finding) (seen : List Str),
    x ∈ recLoop vs seen →
    ∃ v, v ∈ vs ∧ x = tagged_recommendation v ∧
      seen.contains v.recommendation = false ∧ v.recommendation ≠ [] := by
  intro vs
  induction vs with
  | nil =>
    intro seen h
    cases h
  | cons v vs ih =>
    intro seen h
    simp only [recLoop] at h
    split at h
    · next hcond =>
      rw [Bool.and_eq_true, Bool.not_eq_true', Bool.not_eq_true'] at hcond
      rcases List.mem_cons.mp h with h1 | h1
      · refine ⟨v, List.mem_cons_self _ _, h1, hcond.2, ?_⟩
        intro hnil
        rw [hnil] at hcond
        exact absurd hcond.1 (by decide)
      · obtain ⟨w, hw, hx, hcont, hne⟩ := ih _ h1
        have hseen : seen.contains w.recommendation = false := by
          by_contra hb
          rw [Bool.not_eq_false] at hb
          have hm2 := contains_iff_mem_str.mp hb
          have h3 := contains_iff_mem_str.mpr (List.mem_cons_of_mem v.recommendation hm2)
          rw [hcont] at h3
          cases h3
        exact ⟨w, List.mem_cons_of_mem _ hw, hx, hseen, hne⟩
    · obtain ⟨w, hw, hx, hcont, hne⟩ := ih _ h
      exact ⟨w, List.mem_cons_of_mem _ hw, hx, hcont, hne⟩

/-- The dedup loop produces a duplicate-free list whenever the tagged
rendering is injective with respect to recommendation texts. -/
theorem nodup_recLoop : ∀ (vs : List Finding) (seen : List Str),
    (∀ v ∈ vs, ∀ w ∈ vs, tagged_recommendation v = tagged_recommendation w →
      v.recommendation = w.recommendation) →
    (recLoop vs seen).Nodup := by
  intro vs
  induction vs with
  | nil =>
    intro seen _
    exact List.nodup_nil
  | cons v vs ih =>
    intro seen hinj
    simp only [recLoop]
    split
    · rw [List.nodup_cons]
      constructor
      · intro hmem
        obtain ⟨w, hw, hx, hcont, _⟩ := mem_recLoop _ _ hmem
        have hrec := hinj v (List.mem_cons_self _ _) w (List.mem_cons_of_mem _ hw) hx
        have hmm : (v.recommendation :: seen).contains w.recommendation = true := by
          rw [contains_iff_mem_str, ← hrec]
          exact List.mem_cons_self _ _
        rw [hcont] at hmm
        cases hmm
      · exact ih _ (fun a ha b hb =>
          hinj a (List.mem_cons_of_mem _ ha) b (List.mem_cons_of_mem _ hb))
    · exact ih _ (fun a ha b hb =>
        hinj a (List.mem_cons_of_mem _ ha) b (List.mem_cons_of_mem _ hb))

/-- Every element produced by the dedup loop starts with `[`. -/
theorem recLoop_head {x : Str} {vs : List Finding} {seen : List Str}
    (h : x ∈ recLoop vs seen) : ∃ t, x = '[' :: t := by
  obtain ⟨w, _, hx, _, _⟩ := mem_recLoop _ _ h
  exact ⟨_, hx⟩

/-- Stable insertion preserves the element universe. -/
theorem mem_insertDesc {x v : Finding} : ∀ {acc : List Finding},
    x ∈ insertDesc v acc → x = v ∨ x ∈ acc := by
  intro acc
  induction acc with
  | nil =>
    intro h
    exact Or.inl (List.mem_singleton.mp h)
  | cons w ws ih =>
    intro h
    simp only [insertDesc] at h
    split at h
    · rcases List.mem_cons.mp h with h1 | h1
      · exact Or.inr (h1 ▸ List.mem_cons_self _ _)
      · rcases ih h1 with h2 | h2
        · exact Or.inl h2
        · exact Or.inr (List.mem_cons_of_mem _ h2)
    · rcases List.mem_cons.mp h with h1 | h1
      · exact Or.inl h1
      · exact Or.inr h1

/-- The stable sort preserves the element universe. -/
theorem mem_sortBySeverityDesc {x : Finding} (vulns : List Finding)
    (h : x ∈ sortBySeverityDesc vulns) : x ∈ vulns := by
  suffices haux : ∀ (l acc : List Finding),
      x ∈ l.foldl (fun a v => insertDesc v a) acc → x ∈ acc ∨ x ∈ l by
    rcases haux vulns [] h with h1 | h1
    · cases h1
    · exact h1
  intro l
  induction l with
  | nil =>
    intro acc h2
    exact Or.inl h2
  | cons v vs ih =>
    intro acc h2
    rw [List.foldl_cons] at h2
    rcases ih _ h2 with h3 | h3
    · rcases mem_insertDesc h3 with h4 | h4
      · exact Or.inr (h4 ▸ List.mem_cons_self _ _)
      · exact Or.inl h4
    · exact Or.inr (List.mem_cons_of_mem _ h3)

/-- Lists with different head characters are different. -/
theorem cons_ne_of_head_ne {a b : Char} (h : a ≠ b) {s t : Str} : a :: s ≠ b :: t := by
  intro e
  injection e with h1 _
  exact h h1

/-- C9 (amended): for the empty finding sequence the recommendation list is
exactly the two fixed closing recommendations; and for every finding
sequence whose tagged renderings are injective with respect to
recommendation texts — in particular whenever no category tag contains `]`,
as for the built-in catalog — the recommendation list contains no duplicate
strings. -/
theorem recommendations_spec :
    generate_recommendations [] = [audit_recommendation, pq_recommendation] ∧
    ∀ vulns : List Finding,
      (∀ v ∈ vulns, ∀ w ∈ vulns, tagged_recommendation v = tagged_recommendation w →
        v.recommendation = w.recommendation) →
      (generate_recommendations vulns).Nodup := by
  constructor
  · rfl
  · intro vulns hinj
    unfold generate_recommendations
    dsimp only
    have hinj5 : ∀ v ∈ (sortBySeverityDesc vulns).take 5,
        ∀ w ∈ (sortBySeverityDesc vulns).take 5,
        tagged_recommendation v = tagged_recommendation w →
          v.recommendation = w.recommendation := by
      intro a ha b hb
      exact hinj a (mem_sortBySeverityDesc _ (List.take_subset _ _ ha))
        b (mem_sortBySeverityDesc _ (List.take_subset _ _ hb))
    apply List.Nodup.append
    · apply List.Nodup.append
      · exact nodup_recLoop _ _ hinj5
      · split
        · exact List.nodup_singleton _
        · exact List.nodup_nil
      · intro x hx hmem
        obtain ⟨t, rfl⟩ := recLoop_head hx
        split at hmem
        · have h1 := List.mem_singleton.mp hmem
          exact absurd h1 (cons_ne_of_head_ne (by decide))
        · cases hmem
    · have hne : audit_recommendation ≠ pq_recommendation := by decide
      rw [List.nodup_cons]
      exact ⟨fun hm => hne (List.mem_singleton.mp hm), List.nodup_singleton _⟩
    · intro x hx hmem
      rcases List.mem_append.mp hx with hx1 | hx1
      · obtain ⟨t, rfl⟩ := recLoop_head hx1
        rcases List.mem_cons.mp hmem with h1 | h1
        · exact absurd h1 (cons_ne_of_head_ne (by decide))
        · have h2 := List.mem_singleton.mp h1
          exact absurd h2 (cons_ne_of_head_ne (by decide))
      · split at hx1
        · have h0 := List.mem_singleton.mp hx1
          subst h0
          rcases List.mem_cons.mp hmem with h1 | h1
          · exact absurd h1 (cons_ne_of_head_ne (by decide))
          · have h2 := List.mem_singleton.mp h1
            exact absurd h2 (cons_ne_of_head_ne (by decide))
        · cases hx1

/-- First C9 witness finding: the built-in reentrancy recommendation. -/
def c9_witness_finding_a : Finding :=
  { ftype := s2l ("reentrancy"), severity := 10, description := s2l (""),
    location := s2l (""), confidence := ⟨9, 10, by decide⟩,
    recommendation := s2l ("Update state before making external calls (checks-effects-interactions)") }

/-- Second C9 witness finding: the built-in overflow recommendation. -/
def c9_witness_finding_b : Finding :=
  { ftype := s2l ("integer_overflow"), severity := 8, description := s2l (""),
    location := s2l (""), confidence := ⟨9, 10, by decide⟩,
    recommendation := s2l ("Use checked_add/sub/mul/div instead of direct arithmetic") }

/-- Witness for `recommendations_spec` at two catalog-style findings. -/
theorem recommendations_spec_witness :
    (∀ v ∈ [c9_witness_finding_a, c9_witness_finding_b],
      ∀ w ∈ [c9_witness_finding_a, c9_witness_finding_b],
      tagged_recommendation v = tagged_recommendation w →
        v.recommendation = w.recommendation) ∧
    (generate_recommendations [c9_witness_finding_a, c9_witness_finding_b]).Nodup :=
  ⟨by decide, recommendations_spec.2 [c9_witness_finding_a, c9_witness_finding_b] (by decide)⟩
